import Mathlib

/-!
Verification of the video-tts-backend media pipeline (src/index.js).

The development shallowly embeds the pure core of the server:

* `formatTime` (src/index.js lines 46-50): SRT timestamp rendering,
* `generateSrt` / `generateSrtCues` (lines 58-72): the subtitle cue
  timeline builder,
* `complexFilter` (lines 129-134): the ffmpeg composition filter graph,
* `handleUpload` (lines 75-168): the upload handler's control flow,
  modelled as a function from an environment (which inputs are present,
  which external stages succeed) to the response status, the set of
  artifacts still on disk when the request terminates, and the list of
  pipeline stages that were invoked,
* `normalizeStage` (lines 83-99): the unconditional convert/downscale
  stage.

Times are rationals (seconds); machine floats of the source carry exact
decimal literals (0.15, 0.5, 10, ...) on the inputs considered here, so
the rational embedding is exact on them.
-/

namespace VideoTTS

/-- The ten decimal digit characters; any other digit index is unused. -/
def digitChar (d : Nat) : Char :=
  if d = 0 then '0' else if d = 1 then '1' else if d = 2 then '2'
    else if d = 3 then '3' else if d = 4 then '4' else if d = 5 then '5'
    else if d = 6 then '6' else if d = 7 then '7' else if d = 8 then '8'
    else if d = 9 then '9' else '*'

/-- Inverse of `digitChar` on genuine digits. -/
def charDigit (c : Char) : Option Nat :=
  if c = '0' then some 0 else if c = '1' then some 1
    else if c = '2' then some 2 else if c = '3' then some 3
    else if c = '4' then some 4 else if c = '5' then some 5
    else if c = '6' then some 6 else if c = '7' then some 7
    else if c = '8' then some 8 else if c = '9' then some 9
    else none

/-- Decimal rendering of a natural number (fuel-structured so that it
reduces in the kernel); `natToString` instantiates the fuel. This embeds
the JavaScript template interpolation of a number, e.g. the cue index. -/
def natToStringAux (fuel n : Nat) : List Char :=
  match fuel with
  | 0 => []
  | fuel + 1 =>
    if n < 10 then [digitChar n]
    else natToStringAux fuel (n / 10) ++ [digitChar (n % 10)]

/-- Decimal rendering of a natural number, as the source's string
interpolation of the 1-based cue index produces it. -/
def natToString (n : Nat) : String := ⟨natToStringAux (n + 1) n⟩

/-- Accumulating decimal parser over characters. -/
def parseNatAux : List Char → Nat → Option Nat
  | [], acc => some acc
  | c :: cs, acc =>
    match charDigit c with
    | none => none
    | some d => parseNatAux cs (acc * 10 + d)

/-- Parse a non-empty all-digit character list as a natural number. -/
def parseNat (cs : List Char) : Option Nat :=
  match cs with
  | [] => none
  | _ => parseNatAux cs 0

/-- Two-digit zero-padded field, exactly as `Date.toISOString` renders the
hour, minute and second fields (each is below 100). -/
def pad2 (n : Nat) : String := ⟨[digitChar (n / 10), digitChar (n % 10)]⟩

/-- Three-digit zero-padded field, exactly as
`String(ms).padStart(3, "0")` renders a millisecond count below 1000. -/
def pad3 (n : Nat) : String :=
  ⟨[digitChar (n / 100), digitChar (n / 10 % 10), digitChar (n % 10)]⟩

/-- The whole seconds of a non-negative time value (what the `Date`'s
clock fields are computed from). -/
def ftSec (q : ℚ) : Nat := (⌊q⌋).toNat

/-- `Math.floor((sec % 1) * 1000)`: the milliseconds floored from the
fractional part. -/
def ftMs (q : ℚ) : Nat := (⌊(q - (⌊q⌋ : ℚ)) * 1000⌋).toNat

/-- src/index.js lines 46-50:

    const formatTime = (sec) => {
      const date = new Date(sec*1000).toISOString().substr(11,8);
      const ms = String(Math.floor((sec%1)*1000)).padStart(3,"0");
      return date + "," + ms;
    };

For `0 ≤ sec` (and below the year-10000 limit of `toISOString`), the
`substr(11,8)` slice of the ISO string is the UTC clock
`HH:MM:SS` of `⌊sec⌋` seconds after midnight, i.e. the hour field is
`⌊sec⌋ / 3600` reduced modulo 24; `sec % 1` is the fractional part. -/
def formatTime (sec : ℚ) : String :=
  pad2 (ftSec sec / 3600 % 24) ++ ":" ++ pad2 (ftSec sec / 60 % 60) ++ ":"
    ++ pad2 (ftSec sec % 60) ++ "," ++ pad3 (ftMs sec)

/-- What the claim about the formatter describes for times below one
day: the clock `HH:MM:SS` of `⌊t⌋` with no wrap-around, and the
milliseconds floored from the fractional part. -/
def clockRender (t : ℚ) : String :=
  pad2 (ftSec t / 3600) ++ ":" ++ pad2 (ftSec t % 3600 / 60) ++ ":"
    ++ pad2 (ftSec t % 60) ++ "," ++ pad3 (ftMs t)

/-- `String.prototype.split` with a single-character separator: every
occurrence of `c` is a boundary, so the empty list splits to `[[]]`
(JavaScript: `"".split(" ")` is `[""]`). -/
def splitChar (c : Char) : List Char → List (List Char)
  | [] => [[]]
  | x :: xs =>
    if x = c then [] :: splitChar c xs
    else
      match splitChar c xs with
      | [] => [[x]]
      | y :: ys => (x :: y) :: ys

/-- `Array.prototype.join(sep)`. -/
def joinSep (sep : String) : List String → String
  | [] => ""
  | [x] => x
  | x :: xs => x ++ sep ++ joinSep sep xs

/-- JavaScript word character class `\w` (ASCII letters, digits and
underscore). -/
def wordChar (c : Char) : Bool := c.isAlphanum || c = '_'

/-- JavaScript whitespace class `\s` (the ASCII members: space, tab,
newline, carriage return, vertical tab, form feed). -/
def spaceChar (c : Char) : Bool :=
  c = ' ' || c = '\t' || c = '\n' || c = '\r'
    || c = Char.ofNat 11 || c = Char.ofNat 12

/-- The character class kept by the sanitizer's regex
`[^\w\s.,!?'"()-]` (everything else is deleted). The apostrophe and the
double quote are written by code point (39 and 34). -/
def allowedChar (c : Char) : Bool :=
  wordChar c || spaceChar c || c = '.' || c = ',' || c = '!' || c = '?'
    || c = Char.ofNat 39 || c = Char.ofNat 34 || c = '(' || c = ')' || c = '-'

/-- src/index.js line 59, first half:
`text.replace(/[^\w\s.,!?'"()-]/g, "")` deletes every disallowed
character. -/
def sanitize (s : String) : String := ⟨s.data.filter allowedChar⟩

/-- src/index.js line 59, second half: `.split(" ")` on a single space. -/
def splitWords (s : String) : List String :=
  (splitChar ' ' s.data).map (fun cs => (⟨cs⟩ : String))

/-- The chunking loop of src/index.js line 61
(`for(let i=0;i<words.length;i+=chunkSize) lines.push(words.slice(i,i+chunkSize))`),
fuel-structured on the list length so it reduces in the kernel. -/
def chunksOfAux (fuel k : Nat) (l : List α) : List (List α) :=
  match fuel with
  | 0 => []
  | fuel + 1 =>
    match l with
    | [] => []
    | _ => l.take k :: chunksOfAux fuel k (l.drop k)

/-- Partition a list into contiguous chunks of `k` elements (last chunk
may be shorter); for `k ≥ 1` the fuel `l.length` always suffices. -/
def chunksOf (k : Nat) (l : List α) : List (List α) := chunksOfAux l.length k l

/-- One subtitle cue: 1-based index, start and end time in seconds, and
its text line. -/
structure Cue where
  index : Nat
  startTime : ℚ
  endTime : ℚ
  text : String
deriving DecidableEq, Repr

/-- The cue-emitting fold of src/index.js lines 64-70: starting at time
`t` with 1-based index `i`, each line spans `ld` seconds and the next
line starts `gap` seconds after the previous end. -/
def cuesFrom : List String → ℚ → ℚ → ℚ → Nat → List Cue
  | [], _, _, _, _ => []
  | line :: rest, ld, gap, t, i =>
    { index := i, startTime := t, endTime := t + ld, text := line }
      :: cuesFrom rest ld gap (t + ld + gap) (i + 1)

/-- src/index.js lines 58-64: the cue timeline of `generateSrt` before
serialization. Words are the sanitized text split on single spaces,
lines are chunks of `chunkSize` words joined by spaces, the per-line
span is `max(duration / lines.length - 0.15, 0.5)`, and cues are laid
out from `t = 0` with a `0.15` second gap. -/
def generateSrtCues (text : String) (duration : ℚ) (chunkSize : Nat) : List Cue :=
  let words := splitWords (sanitize text)
  let lines := (chunksOf chunkSize words).map (joinSep " ")
  let buffer : ℚ := 15 / 100
  let lineDuration : ℚ := max (duration / (lines.length : ℚ) - buffer) (1 / 2)
  cuesFrom lines lineDuration buffer 0 1

/-- src/index.js line 67: one SRT block,
`index ++ "\n" ++ start ++ " --> " ++ end ++ "\n" ++ text ++ "\n"`. -/
def serializeCue (c : Cue) : String :=
  natToString c.index ++ "\n" ++ formatTime c.startTime ++ " --> "
    ++ formatTime c.endTime ++ "\n" ++ c.text ++ "\n"

/-- src/index.js lines 58-72: the SRT file content, the blocks joined by
`"\n"` (line 70), which leaves one blank line between blocks. -/
def generateSrt (text : String) (duration : ℚ) (chunkSize : Nat) : String :=
  joinSep "\n" ((generateSrtCues text duration chunkSize).map serializeCue)

/-- Parse a 12-character `HH:MM:SS,mmm` timestamp back to seconds. -/
def parseTimestamp (cs : List Char) : Option ℚ :=
  match cs with
  | [h1, h2, c1, m1, m2, c2, s1, s2, c3, d1, d2, d3] =>
    if c1 = ':' && c2 = ':' && c3 = ',' then do
      let a1 ← charDigit h1
      let a2 ← charDigit h2
      let b1 ← charDigit m1
      let b2 ← charDigit m2
      let e1 ← charDigit s1
      let e2 ← charDigit s2
      let f1 ← charDigit d1
      let f2 ← charDigit d2
      let f3 ← charDigit d3
      pure (((10 * a1 + a2) * 3600 + (10 * b1 + b2) * 60 + (10 * e1 + e2) : ℚ)
        + ((100 * f1 + 10 * f2 + f3 : ℚ)) / 1000)
    else none
  | _ => none

/-- Parse a cue's timing line `start --> end` (both timestamps are the
fixed-width 12-character rendering, separated by the 5-character
arrow). -/
def parseTimeLine (cs : List Char) : Option (ℚ × ℚ) :=
  if (cs.drop 12).take 5 = [' ', '-', '-', '>', ' '] then
    match parseTimestamp (cs.take 12), parseTimestamp ((cs.drop 12).drop 5) with
    | some a, some b => some (a, b)
    | _, _ => none
  else none

/-- Parse the line list of an emitted SRT file: repeated groups of
index line, timing line, text line, and the blank separator line that
joining "...\n" blocks with "\n" produces after every block. -/
def parseBlocks : List (List Char) → Option (List Cue)
  | [] => some []
  | idxL :: tsL :: textL :: [] :: rest => do
    let i ← parseNat idxL
    let (a, b) ← parseTimeLine tsL
    let cs ← parseBlocks rest
    pure ({ index := i, startTime := a, endTime := b, text := ⟨textL⟩ } :: cs)
  | _ => none

/-- Parse an emitted SRT string back into its cue sequence. -/
def parseSrt (content : String) : Option (List Cue) :=
  parseBlocks (splitChar '\n' content.data)

/-- A time that is a whole, non-negative number of milliseconds — the
precision `formatTime` renders without loss. -/
def msExact (q : ℚ) : Prop := 0 ≤ q ∧ (q * 1000).den = 1

instance (q : ℚ) : Decidable (msExact q) := by unfold msExact; infer_instance

/-- The character content of one cue's timing line. -/
def timeLineData (c : Cue) : List Char :=
  (formatTime c.startTime).data ++ [' ', '-', '-', '>', ' ']
    ++ (formatTime c.endTime).data

/-- The well-formedness a cue needs for its serialized block to parse
back losslessly: times are whole non-negative milliseconds below 24
hours, and the text line contains no newline. -/
def wfCue (c : Cue) : Prop :=
  msExact c.startTime ∧ c.startTime < 86400 ∧ msExact c.endTime ∧
    c.endTime < 86400 ∧ '\n' ∉ c.text.data

instance (c : Cue) : Decidable (wfCue c) := by unfold wfCue; infer_instance

/-- The five externally-executed pipeline stages of the upload handler. -/
inductive Stage where
  | normalize
  | synthesize
  | probe
  | compose
  | stream
deriving DecidableEq, Repr

/-- The artifacts a request creates on disk: the raw upload (written by
multer), the converted video, the TTS audio, the subtitle file and the
final output. -/
inductive Artifact where
  | raw
  | converted
  | audio
  | srt
  | output
deriving DecidableEq, Repr

/-- One request's environment: which inputs the client sent and which
external stage invocations succeed. -/
structure Env where
  video : Option String
  text : Option String
  convertOk : Bool
  ttsOk : Bool
  probeOk : Bool
  composeOk : Bool
deriving DecidableEq, Repr

/-- What a request leaves behind: the HTTP status, the artifacts still
on disk once the request (including the response stream) has fully
terminated, and the pipeline stages that were invoked. -/
structure ReqResult where
  status : Nat
  files : List Artifact
  invoked : List Stage
deriving DecidableEq, Repr

/-- src/index.js lines 75-168, the `/upload` handler's control flow.

* Line 79: `if(!videoFile || !text) return res.status(400)...` — a
  missing video, a missing text field, or an empty text string (falsy in
  JavaScript) is rejected before any stage runs. When multer did write
  the raw upload, nothing deletes it on this path.
* Lines 85-98 (stage 1): ffmpeg convert; on rejection the `catch` at
  lines 164-167 only logs and answers 500 — it deletes nothing.
* Line 99: `fs.unlinkSync(videoFile.path)` deletes the raw upload.
* Lines 103-111 (stage 2), 115-118 (stage 3), 125-145 (stage 4): each
  failure likewise lands in the catch block with everything created so
  far still on disk.
* Lines 149-151: on success the converted video, audio and subtitle
  files are deleted; line 162 deletes the output when the response
  stream closes. -/
def handleUpload (env : Env) : ReqResult :=
  match env.video, env.text with
  | none, _ => ⟨400, [], []⟩
  | some _, none => ⟨400, [.raw], []⟩
  | some _, some t =>
    if t = "" then ⟨400, [.raw], []⟩
    else
      let files := [Artifact.raw]
      if !env.convertOk then ⟨500, files, [.normalize]⟩
      else
        let files := files ++ [.converted]
        let files := files.erase .raw
        if !env.ttsOk then ⟨500, files, [.normalize, .synthesize]⟩
        else
          let files := files ++ [.audio]
          if !env.probeOk then ⟨500, files, [.normalize, .synthesize, .probe]⟩
          else
            let files := files ++ [.srt]
            if !env.composeOk then
              ⟨500, files, [.normalize, .synthesize, .probe, .compose]⟩
            else
              let files := files ++ [.output]
              let files := ((files.erase .converted).erase .audio).erase .srt
              let files := files.erase .output
              ⟨200, files, [.normalize, .synthesize, .probe, .compose, .stream]⟩

/-- Probe metadata of an input video, as the claim about the Normalizer
fast-path quantifies over it (container, codecs, width). -/
structure ProbeMeta where
  container : String
  videoCodec : String
  audioCodec : String
  width : Nat
deriving DecidableEq, Repr

/-- Canonical already-normalized input as the spec describes it: MP4
container, H.264 video, AAC audio, width within the 854-pixel bound of
the scale filter. -/
def canonicalMeta (m : ProbeMeta) : Bool :=
  m.container = "mp4" && m.videoCodec = "h264" && m.audioCodec = "aac"
    && m.width ≤ 854

/-- src/index.js lines 83-98, stage 1: the handler builds a fresh
`uploads/converted_<uid>.mp4` path and unconditionally runs one ffmpeg
re-encode (libx264/aac, `scale=854:-2`) into it. There is no probe and
no fast path: the input's metadata is never consulted. The result is
the output path together with the number of transcode invocations. -/
def normalizeStage (_inputPath : String) (uid : String) (_m : ProbeMeta) :
    String × Nat :=
  ("uploads/converted_" ++ uid ++ ".mp4", 1)

/-- `srtPath.replace(/\\/g, "/")` of src/index.js line 133. -/
def replaceBackslashes (s : String) : String :=
  ⟨s.data.map (fun c => if c = Char.ofNat 92 then '/' else c)⟩

/-- src/index.js lines 129-134: the composition filter graph passed to
`complexFilter`, literally. -/
def complexFilter (srtPath : String) : List String :=
  ["[0:a]volume=0.3[a0]",
   "[1:a]volume=1.0[a1]",
   "[a0][a1]amix=inputs=2:duration=longest[a]",
   "subtitles=" ++ replaceBackslashes srtPath]

/-! ### Structure of the cue timeline -/

theorem cuesFrom_length (lines : List String) (ld gap : ℚ) :
    ∀ t i, (cuesFrom lines ld gap t i).length = lines.length := by
  induction lines with
  | nil => intro t i; rfl
  | cons x xs ih => intro t i; simp [cuesFrom, ih]

theorem cuesFrom_getElem? (lines : List String) (ld gap : ℚ) :
    ∀ (t : ℚ) (i j : Nat), (cuesFrom lines ld gap t i)[j]? =
      (lines[j]?).map (fun line =>
        ({ index := i + j, startTime := t + j * (ld + gap),
           endTime := t + j * (ld + gap) + ld, text := line } : Cue)) := by
  induction lines with
  | nil => intro t i j; simp [cuesFrom]
  | cons x xs ih =>
    intro t i j
    cases j with
    | zero => simp [cuesFrom]
    | succ j =>
      rw [cuesFrom, List.getElem?_cons_succ, List.getElem?_cons_succ,
        ih (t + ld + gap) (i + 1) j]
      cases hx : xs[j]? with
      | none => simp
      | some line =>
        simp only [Option.map_some', Option.some.injEq, Cue.mk.injEq]
        refine ⟨by omega, by push_cast; ring, by push_cast; ring, trivial⟩

theorem cuesFrom_span (lines : List String) (ld gap : ℚ) :
    ∀ t i c, c ∈ cuesFrom lines ld gap t i → c.endTime - c.startTime = ld := by
  induction lines with
  | nil => intro t i c hc; simp [cuesFrom] at hc
  | cons x xs ih =>
    intro t i c hc
    rw [cuesFrom, List.mem_cons] at hc
    rcases hc with hc | hc
    · subst hc; simp
    · exact ih _ _ _ hc

theorem chunksOfAux_length {α : Type} (k : Nat) (hk : 0 < k) :
    ∀ fuel (l : List α), l.length ≤ fuel →
      (chunksOfAux fuel k l).length = (l.length + k - 1) / k := by
  have hz : (k - 1) / k = 0 := Nat.div_eq_of_lt (by omega)
  intro fuel
  induction fuel with
  | zero =>
    intro l hl
    have : l = [] := List.length_eq_zero.mp (by omega)
    subst this
    simp [chunksOfAux, hz]
  | succ fuel ih =>
    intro l hl
    cases l with
    | nil => simp [chunksOfAux, hz]
    | cons x xs =>
      simp only [List.length_cons] at hl
      have hdrop : ((x :: xs).drop k).length ≤ fuel := by
        simp only [List.length_drop, List.length_cons]
        omega
      have hstep : chunksOfAux (fuel + 1) k (x :: xs)
          = (x :: xs).take k :: chunksOfAux fuel k ((x :: xs).drop k) := rfl
      rw [hstep, List.length_cons, ih _ hdrop, List.length_drop,
        List.length_cons]
      have hsub : xs.length + 1 + k - 1 = (xs.length + 1 - 1) + k := by omega
      rw [hsub, Nat.add_div_right _ hk]
      rcases le_or_lt (xs.length + 1) k with h | h
      · have h0 : xs.length + 1 - k = 0 := by omega
        rw [h0]
        simp only [Nat.zero_add, hz,
          Nat.div_eq_of_lt (show xs.length + 1 - 1 < k by omega)]
      · have h1 : xs.length + 1 - k + k - 1 = xs.length + 1 - 1 := by omega
        rw [h1]

theorem chunksOf_length {α : Type} (k : Nat) (hk : 0 < k) (l : List α) :
    (chunksOf k l).length = (l.length + k - 1) / k :=
  chunksOfAux_length k hk l.length l le_rfl

theorem splitChar_ne_nil (c : Char) : ∀ l, splitChar c l ≠ [] := by
  intro l
  induction l with
  | nil => simp [splitChar]
  | cons x xs ih =>
    rw [splitChar]
    split
    · simp
    · cases h : splitChar c xs with
      | nil => simp
      | cons y ys => simp

theorem splitWords_ne_nil (s : String) : splitWords s ≠ [] := by
  unfold splitWords
  intro h
  exact splitChar_ne_nil ' ' s.data (List.map_eq_nil_iff.mp h)

theorem generateSrtCues_length (text : String) (d : ℚ) :
    (generateSrtCues text d 6).length
      = ((splitWords (sanitize text)).length + 6 - 1) / 6 := by
  simp only [generateSrtCues]
  rw [cuesFrom_length, List.length_map, chunksOf_length 6 (by omega)]

theorem generateSrtCues_ne_nil (text : String) (d : ℚ) :
    generateSrtCues text d 6 ≠ [] := by
  intro h
  have hlen := congrArg List.length h
  rw [List.length_nil, generateSrtCues_length] at hlen
  have hw := splitWords_ne_nil (sanitize text)
  cases hws : splitWords (sanitize text) with
  | nil => exact hw hws
  | cons w ws =>
    rw [hws] at hlen
    simp only [List.length_cons] at hlen
    omega

/-! ### C1, C2, C7: the cue timeline builder -/

/-- C1: for every text whose sanitized word list is non-empty (it always
is: splitting on a space yields at least one element) and every positive
duration, the builder produces exactly `⌈word_count / 6⌉` cues (written
`(n + 6 - 1) / 6` in natural division); cues are indexed contiguously
from 1; each cue starts `0.15` seconds after the previous cue's end; and
every cue's span is at least the `0.5` second floor. -/
theorem cue_builder_count_contiguity_gap_floor (text : String) (d : ℚ)
    (_hd : 0 < d) (_hn : 0 < (splitWords (sanitize text)).length) :
    (generateSrtCues text d 6).length
      = ((splitWords (sanitize text)).length + 6 - 1) / 6 ∧
    (∀ (j : Nat) (c : Cue), (generateSrtCues text d 6)[j]? = some c →
      c.index = j + 1) ∧
    (∀ (j : Nat) (c c' : Cue), (generateSrtCues text d 6)[j]? = some c →
      (generateSrtCues text d 6)[j + 1]? = some c' →
      c'.startTime = c.endTime + 15 / 100) ∧
    (∀ c ∈ generateSrtCues text d 6, 1 / 2 ≤ c.endTime - c.startTime) := by
  refine ⟨generateSrtCues_length text d, ?_, ?_, ?_⟩
  · intro j c hc
    simp only [generateSrtCues] at hc
    rw [cuesFrom_getElem?] at hc
    cases hx : ((chunksOf 6 (splitWords (sanitize text))).map (joinSep " "))[j]? with
    | none => rw [hx] at hc; simp at hc
    | some line =>
      rw [hx] at hc
      simp only [Option.map_some', Option.some.injEq] at hc
      rw [← hc]
      show 1 + j = j + 1
      omega
  · intro j c c' hc hc'
    simp only [generateSrtCues] at hc hc'
    rw [cuesFrom_getElem?] at hc hc'
    cases hx : ((chunksOf 6 (splitWords (sanitize text))).map (joinSep " "))[j]? with
    | none => rw [hx] at hc; simp at hc
    | some line =>
      cases hx' : ((chunksOf 6 (splitWords (sanitize text))).map (joinSep " "))[j + 1]? with
      | none => rw [hx'] at hc'; simp at hc'
      | some line' =>
        rw [hx] at hc
        rw [hx'] at hc'
        simp only [Option.map_some', Option.some.injEq] at hc hc'
        rw [← hc, ← hc']
        push_cast
        ring
  · intro c hc
    simp only [generateSrtCues] at hc
    rw [cuesFrom_span _ _ _ _ _ c hc]
    exact le_max_right _ _

/-- Witness for C1 at the spec's own scenario input. -/
theorem cue_builder_count_contiguity_gap_floor_witness :
    (generateSrtCues "hello world testing one two three four" 10 6).length
      = ((splitWords (sanitize "hello world testing one two three four")).length + 6 - 1) / 6 ∧
    (∀ (j : Nat) (c : Cue),
      (generateSrtCues "hello world testing one two three four" 10 6)[j]? = some c →
      c.index = j + 1) ∧
    (∀ (j : Nat) (c c' : Cue),
      (generateSrtCues "hello world testing one two three four" 10 6)[j]? = some c →
      (generateSrtCues "hello world testing one two three four" 10 6)[j + 1]? = some c' →
      c'.startTime = c.endTime + 15 / 100) ∧
    (∀ c ∈ generateSrtCues "hello world testing one two three four" 10 6,
      1 / 2 ≤ c.endTime - c.startTime) :=
  cue_builder_count_contiguity_gap_floor "hello world testing one two three four"
    10 (by norm_num) (by decide)

/-- C2: every cue's span is the single value
`max(duration / chunk_count - 0.15, 0.5)` (the chunk count equals the
cue count), consecutive cues are laid out sequentially from `t = 0` with
`start_{i+1} = start_i + span + 0.15`, and on the spec's scenario (7
words, chunk size 6, duration 10 s) the builder yields exactly the two
cues `[0, 4.85)` (first six words) and `[5, 9.85)` (`"four"`);
`97/20 = 4.85` and `197/20 = 9.85`. -/
theorem cue_builder_span_formula_and_scenario :
    (∀ (text : String) (d : ℚ), ∀ c ∈ generateSrtCues text d 6,
      c.endTime - c.startTime
        = max (d / ((generateSrtCues text d 6).length : ℚ) - 15 / 100) (1 / 2)) ∧
    (∀ (text : String) (d : ℚ) (j : Nat) (c c' : Cue),
      (generateSrtCues text d 6)[j]? = some c →
      (generateSrtCues text d 6)[j + 1]? = some c' →
      c'.startTime = c.startTime
        + max (d / ((generateSrtCues text d 6).length : ℚ) - 15 / 100) (1 / 2)
        + 15 / 100) ∧
    generateSrtCues "hello world testing one two three four" 10 6
      = [⟨1, 0, 97 / 20, "hello world testing one two three"⟩,
         ⟨2, 5, 197 / 20, "four"⟩] := by
  have hlen : ∀ (text : String) (d : ℚ), ((generateSrtCues text d 6).length : ℚ)
      = (((chunksOf 6 (splitWords (sanitize text))).map (joinSep " ")).length : ℚ) := by
    intro text d
    simp only [generateSrtCues, cuesFrom_length]
  refine ⟨?_, ?_, ?_⟩
  · intro text d c hc
    rw [hlen]
    simp only [generateSrtCues] at hc
    exact cuesFrom_span _ _ _ _ _ c hc
  · intro text d j c c' hc hc'
    rw [hlen]
    simp only [generateSrtCues] at hc hc'
    rw [cuesFrom_getElem?] at hc hc'
    cases hx : ((chunksOf 6 (splitWords (sanitize text))).map (joinSep " "))[j]? with
    | none => rw [hx] at hc; simp at hc
    | some line =>
      cases hx' : ((chunksOf 6 (splitWords (sanitize text))).map (joinSep " "))[j + 1]? with
      | none => rw [hx'] at hc'; simp at hc'
      | some line' =>
        rw [hx] at hc
        rw [hx'] at hc'
        simp only [Option.map_some', Option.some.injEq] at hc hc'
        rw [← hc, ← hc']
        push_cast
        ring
  · have hl : (chunksOf 6 (splitWords (sanitize "hello world testing one two three four"))).map
        (joinSep " ") = ["hello world testing one two three", "four"] := rfl
    simp only [generateSrtCues, hl]
    norm_num [cuesFrom, Cue.mk.injEq, max_def]

/-- C7: there is a non-empty text and positive duration with
`duration / chunk_count - gap` below the `0.5` floor for which the final
cue's end time exceeds the narration duration — the builder stores the
overflowing end time unchanged. Here: 7 words and 1 second, whose last
cue is `[0.65, 1.15)` with `1.15 > 1`. -/
theorem cue_builder_overflow_exists :
    ∃ (text : String) (d : ℚ), 0 < d ∧
      d / ((generateSrtCues text d 6).length : ℚ) - 15 / 100 < 1 / 2 ∧
      ∃ c, (generateSrtCues text d 6).getLast? = some c ∧ d < c.endTime := by
  refine ⟨"a b c d e f g", 1, by norm_num, ?_, ?_⟩
  all_goals
    have hl : (chunksOf 6 (splitWords (sanitize "a b c d e f g"))).map (joinSep " ")
        = ["a b c d e f", "g"] := rfl
    have hcues : generateSrtCues "a b c d e f g" 1 6 =
        [⟨1, 0, 1 / 2, "a b c d e f"⟩, ⟨2, 13 / 20, 23 / 20, "g"⟩] := by
      simp only [generateSrtCues, hl]
      norm_num [cuesFrom, Cue.mk.injEq, max_def]
  · rw [hcues]
    norm_num
  · refine ⟨⟨2, 13 / 20, 23 / 20, "g"⟩, by rw [hcues]; rfl, by norm_num⟩

/-! ### C3, C4, C9: the upload handler's cleanup, validation and
error paths -/

/-- C3 counterexample: a request whose synthesis stage fails terminates
with status 500 while the converted video it created is still on disk —
the catch block of src/index.js lines 164-167 deletes nothing, so not
every artifact created during a failing request is deleted. -/
theorem cleanup_claim_counterexample :
    (handleUpload ⟨some "v.mp4", some "hi", true, false, true, true⟩).status = 500 ∧
    (handleUpload ⟨some "v.mp4", some "hi", true, false, true, true⟩).files
      = [Artifact.converted] := by
  constructor <;> rfl

/-- C3 amended: only on a fully successful request is every artifact
deleted before the request terminates (the raw upload after
normalization, the converted video / audio / subtitle files after
composition, the output once the response stream closes); on any stage
failure the handler deletes nothing further, so the artifacts created
before the failure remain. -/
theorem cleanup_only_on_success (env : Env) (hv : env.video ≠ none)
    (ht : env.text ≠ none) (hne : env.text ≠ some "")
    (h1 : env.convertOk = true) (h2 : env.ttsOk = true)
    (h3 : env.probeOk = true) (h4 : env.composeOk = true) :
    (handleUpload env).status = 200 ∧ (handleUpload env).files = [] := by
  rcases env with ⟨v, t, c1, c2, c3, c4⟩
  cases v with
  | none => exact absurd rfl hv
  | some v =>
    cases t with
    | none => exact absurd rfl ht
    | some t =>
      simp only at h1 h2 h3 h4
      subst h1; subst h2; subst h3; subst h4
      have htne : ¬ (t = "") := by
        intro h
        exact hne (by simp [h])
      simp only [handleUpload, if_neg htne]
      exact ⟨rfl, rfl⟩

/-- Witness for the amended C3 on a concrete all-success request. -/
theorem cleanup_only_on_success_witness :
    (handleUpload ⟨some "v.mp4", some "hi", true, true, true, true⟩).status = 200 ∧
    (handleUpload ⟨some "v.mp4", some "hi", true, true, true, true⟩).files = [] :=
  cleanup_only_on_success ⟨some "v.mp4", some "hi", true, true, true, true⟩
    (by simp) (by simp) (by simp) rfl rfl rfl rfl

/-- C4 counterexample: on empty text the cue builder does not fail —
`"".split(" ")` is `[""]`, one word, so it returns a single cue with
empty text spanning `[0, max(10 - 0.15, 0.5)) = [0, 9.85)`. No
`EmptyTextError` exists in the code. -/
theorem empty_text_builder_yields_cue :
    generateSrtCues "" 10 6 = [⟨1, 0, 197 / 20, ""⟩] := by
  have hl : (chunksOf 6 (splitWords (sanitize ""))).map (joinSep " ") = [""] := rfl
  simp only [generateSrtCues, hl]
  norm_num [cuesFrom, Cue.mk.injEq, max_def]

/-- C4 amended: the cue builder itself never fails — on empty text it
produces one cue `[0, max(duration - 0.15, 0.5))` with empty text.
Instead, an empty text field is falsy in JavaScript, so the endpoint's
validation rejects it with HTTP 400 before any stage (synthesis, cue
building, composition) runs. -/
theorem empty_text_rejected_before_stages (env : Env) (d : ℚ)
    (h : env.text = some "") :
    (handleUpload env).status = 400 ∧ (handleUpload env).invoked = [] ∧
    generateSrtCues "" d 6 = [⟨1, 0, max (d - 15 / 100) (1 / 2), ""⟩] := by
  refine ⟨?_, ?_, ?_⟩
  · rcases env with ⟨v, t, c1, c2, c3, c4⟩
    simp only at h
    subst h
    cases v <;> rfl
  · rcases env with ⟨v, t, c1, c2, c3, c4⟩
    simp only at h
    subst h
    cases v <;> rfl
  · have hl : (chunksOf 6 (splitWords (sanitize ""))).map (joinSep " ") = [""] := rfl
    simp only [generateSrtCues, hl]
    simp only [List.length_cons, List.length_nil, Nat.cast_one, div_one,
      cuesFrom, zero_add, Cue.mk.injEq]

/-- Witness for the amended C4 at a concrete empty-text request. -/
theorem empty_text_rejected_before_stages_witness :
    (handleUpload ⟨some "v.mp4", some "", true, true, true, true⟩).status = 400 ∧
    (handleUpload ⟨some "v.mp4", some "", true, true, true, true⟩).invoked = [] ∧
    generateSrtCues "" 10 6 = [⟨1, 0, max ((10 : ℚ) - 15 / 100) (1 / 2), ""⟩] :=
  empty_text_rejected_before_stages ⟨some "v.mp4", some "", true, true, true, true⟩
    10 rfl

/-- C9: a request missing the video file or the text field is answered
with HTTP 400 and no pipeline stage (normalization, synthesis, probe /
cue building, composition) is invoked. -/
theorem missing_input_rejected_no_stage (env : Env)
    (h : env.video = none ∨ env.text = none) :
    (handleUpload env).status = 400 ∧ (handleUpload env).invoked = [] := by
  rcases env with ⟨v, t, c1, c2, c3, c4⟩
  rcases h with h | h <;> simp only at h <;> subst h
  · exact ⟨rfl, rfl⟩
  · cases v <;> exact ⟨rfl, rfl⟩

/-- Witness for C9: a request with text but no video file. -/
theorem missing_input_rejected_no_stage_witness :
    (handleUpload ⟨none, some "hi", true, true, true, true⟩).status = 400 ∧
    (handleUpload ⟨none, some "hi", true, true, true, true⟩).invoked = [] :=
  missing_input_rejected_no_stage ⟨none, some "hi", true, true, true, true⟩
    (Or.inl rfl)

/-! ### C5: the convert/downscale stage has no canonical-input fast
path -/

/-- C5 counterexample: a probe-canonical input (MP4 container, H.264
video, AAC audio, width 720 ≤ 854) is still re-encoded: stage 1 runs
exactly one transcode invocation and returns a fresh
`uploads/converted_<uid>.mp4` path different from the input path,
contradicting "returns the original input path unchanged and performs
zero transcode invocations". -/
theorem normalizer_fastpath_counterexample :
    canonicalMeta ⟨"mp4", "h264", "aac", 720⟩ = true ∧
    (normalizeStage "uploads/in.mp4" "abc12345" ⟨"mp4", "h264", "aac", 720⟩).2 = 1 ∧
    (normalizeStage "uploads/in.mp4" "abc12345" ⟨"mp4", "h264", "aac", 720⟩).1
      ≠ "uploads/in.mp4" := by
  refine ⟨rfl, rfl, ?_⟩
  decide

/-- C5 amended: the stage-1 normalizer of src/index.js lines 83-99 never
probes the input and has no fast path: for every input — including one
whose probe metadata is already canonical — it performs exactly one
transcode invocation and returns the fresh converted-file path, never
the input path. -/
theorem normalizer_always_transcodes (p uid : String) (m : ProbeMeta)
    (_hm : canonicalMeta m = true) :
    normalizeStage p uid m = ("uploads/converted_" ++ uid ++ ".mp4", 1) := rfl

/-- Witness for the amended C5 at a concrete canonical input. -/
theorem normalizer_always_transcodes_witness :
    normalizeStage "uploads/in.mp4" "abc12345" ⟨"mp4", "h264", "aac", 720⟩
      = ("uploads/converted_" ++ "abc12345" ++ ".mp4", 1) :=
  normalizer_always_transcodes "uploads/in.mp4" "abc12345"
    ⟨"mp4", "h264", "aac", 720⟩ rfl

/-! ### C8: fixed audio-mix weights -/

/-- C8: for every request (whatever the subtitle path, hence whatever
the input), the composition filter graph contains the literal
attenuation `volume=0.3` for the original video's audio and
`volume=1.0` for the narration track, as its first two entries. -/
theorem mixing_weights_fixed (srtPath : String) :
    (complexFilter srtPath)[0]? = some "[0:a]volume=0.3[a0]" ∧
    (complexFilter srtPath)[1]? = some "[1:a]volume=1.0[a1]" :=
  ⟨rfl, rfl⟩

/-! ### C10: the timestamp formatter truncates milliseconds and wraps
at 24 hours -/

/-- C10: for `0 ≤ t < 86400` the formatter renders the clock
`HH:MM:SS,mmm` of `t` with the milliseconds floored from the fractional
part (`clockRender`), and for every `t ≥ 0` adding 24 hours renders the
identical string — the hour field wraps modulo 24, so timestamps at or
beyond 24 hours are not monotonically rendered. -/
theorem formatTime_truncates_and_wraps (t : ℚ) (ht : 0 ≤ t) :
    (t < 86400 → formatTime t = clockRender t) ∧
    formatTime (t + 86400) = formatTime t := by
  have hfl : (0 : ℤ) ≤ ⌊t⌋ := Int.floor_nonneg.mpr ht
  constructor
  · intro hlt
    have hsb : ftSec t < 86400 := by
      have h1 : ⌊t⌋ < (86400 : ℤ) := Int.floor_lt.mpr (by exact_mod_cast hlt)
      unfold ftSec
      omega
    have e1 : ftSec t / 3600 % 24 = ftSec t / 3600 := by omega
    have e2 : ftSec t / 60 % 60 = ftSec t % 3600 / 60 := by omega
    unfold formatTime clockRender
    rw [e1, e2]
  · have hs : ftSec (t + 86400) = ftSec t + 86400 := by
      unfold ftSec
      rw [show ((86400 : ℚ)) = ((86400 : ℕ) : ℚ) by norm_num, Int.floor_add_nat]
      omega
    have hms : ftMs (t + 86400) = ftMs t := by
      unfold ftMs
      rw [show ((86400 : ℚ)) = ((86400 : ℕ) : ℚ) by norm_num, Int.floor_add_nat]
      have : t + (86400 : ℕ) - ((⌊t⌋ + (86400 : ℕ) : ℤ) : ℚ) = t - (⌊t⌋ : ℚ) := by
        push_cast
        ring
      rw [this]
    have e1 : (ftSec t + 86400) / 3600 % 24 = ftSec t / 3600 % 24 := by omega
    have e2 : (ftSec t + 86400) / 60 % 60 = ftSec t / 60 % 60 := by omega
    have e3 : (ftSec t + 86400) % 60 = ftSec t % 60 := by omega
    unfold formatTime
    rw [hs, hms, e1, e2, e3]

/-- Witness for C10 at `t = 4.85`. -/
theorem formatTime_truncates_and_wraps_witness :
    (((97 : ℚ) / 20) < 86400 → formatTime (97 / 20) = clockRender (97 / 20)) ∧
    formatTime (97 / 20 + 86400) = formatTime (97 / 20) :=
  formatTime_truncates_and_wraps (97 / 20) (by norm_num)

/-! ### C6: round-tripping the emitted SRT text -/

theorem digitChar_ne_newline (d : Nat) : digitChar d ≠ '\n' := by
  unfold digitChar
  repeat' split
  all_goals decide

theorem charDigit_digitChar (d : Nat) (h : d < 10) :
    charDigit (digitChar d) = some d := by
  interval_cases d <;> rfl

theorem natToStringAux_ne_nil (fuel n : Nat) :
    natToStringAux (fuel + 1) n ≠ [] := by
  rw [natToStringAux]
  split
  · simp
  · simp

theorem natToStringAux_no_newline (fuel : Nat) :
    ∀ n ch, ch ∈ natToStringAux fuel n → ch ≠ '\n' := by
  induction fuel with
  | zero => intro n ch hch; simp [natToStringAux] at hch
  | succ fuel ih =>
    intro n ch hch
    rw [natToStringAux] at hch
    split at hch
    · simp only [List.mem_singleton] at hch
      subst hch
      exact digitChar_ne_newline n
    · rw [List.mem_append] at hch
      rcases hch with hch | hch
      · exact ih _ _ hch
      · simp only [List.mem_singleton] at hch
        subst hch
        exact digitChar_ne_newline (n % 10)

theorem parseNatAux_natToStringAux (n : Nat) :
    ∀ fuel, n ≤ fuel → ∀ acc rest,
      parseNatAux (natToStringAux (fuel + 1) n ++ rest) acc
        = parseNatAux rest (acc * 10 ^ (natToStringAux (fuel + 1) n).length + n) := by
  induction n using Nat.strong_induction_on with
  | _ n ih =>
    intro fuel hfuel acc rest
    rw [natToStringAux]
    rcases Nat.lt_or_ge n 10 with h10 | h10
    · rw [if_pos h10]
      simp only [List.singleton_append, List.length_singleton, pow_one]
      rw [parseNatAux, charDigit_digitChar n h10]
    · rw [if_neg (by omega)]
      have hfuel1 : 1 ≤ fuel := by omega
      have hdiv : n / 10 < n := by omega
      have hdivle : n / 10 ≤ fuel - 1 := by omega
      have hfeq : fuel - 1 + 1 = fuel := by omega
      rw [List.append_assoc, List.singleton_append]
      have hih := ih (n / 10) hdiv (fuel - 1) hdivle acc (digitChar (n % 10) :: rest)
      rw [hfeq] at hih
      rw [hih]
      have hlen : (natToStringAux fuel (n / 10) ++ [digitChar (n % 10)]).length
          = (natToStringAux fuel (n / 10)).length + 1 := by
        simp
      rw [hlen]
      simp only [parseNatAux, charDigit_digitChar (n % 10) (by omega : n % 10 < 10)]
      congr 1
      rw [pow_succ]
      have h : (n / 10) * 10 + n % 10 = n := by omega
      calc (acc * 10 ^ (natToStringAux fuel (n / 10)).length + n / 10) * 10 + n % 10
          = acc * (10 ^ (natToStringAux fuel (n / 10)).length * 10)
            + ((n / 10) * 10 + n % 10) := by ring
        _ = acc * (10 ^ (natToStringAux fuel (n / 10)).length * 10) + n := by rw [h]

theorem parseNat_natToString (n : Nat) :
    parseNat ((natToString n).data) = some n := by
  have hne := natToStringAux_ne_nil n n
  unfold natToString
  show parseNat (natToStringAux (n + 1) n) = some n
  cases hcs : natToStringAux (n + 1) n with
  | nil => exact absurd hcs hne
  | cons c cs =>
    have hstep : parseNat (c :: cs) = parseNatAux (c :: cs) 0 := rfl
    rw [hstep]
    have hfull := parseNatAux_natToStringAux n n le_rfl 0 []
    rw [hcs] at hfull
    simpa [parseNatAux] using hfull

theorem splitChar_append_cons (c : Char) :
    ∀ x y, splitChar c (x ++ c :: y) = splitChar c x ++ splitChar c y := by
  intro x y
  induction x with
  | nil => simp [splitChar]
  | cons a as ih =>
    by_cases hac : a = c
    · subst hac
      simp [splitChar, ih]
    · cases h : splitChar c as with
      | nil => exact absurd h (splitChar_ne_nil c as)
      | cons b bs => simp [splitChar, hac, ih, h]

theorem splitChar_of_not_mem (c : Char) :
    ∀ l, (∀ x ∈ l, x ≠ c) → splitChar c l = [l] := by
  intro l
  induction l with
  | nil => intro _; rfl
  | cons a as ih =>
    intro h
    rw [splitChar, if_neg (h a (List.mem_cons_self a as)),
      ih (fun x hx => h x (List.mem_cons_of_mem a hx))]

theorem formatTime_data (q : ℚ) :
    (formatTime q).data =
      [digitChar (ftSec q / 3600 % 24 / 10), digitChar (ftSec q / 3600 % 24 % 10), ':',
       digitChar (ftSec q / 60 % 60 / 10), digitChar (ftSec q / 60 % 60 % 10), ':',
       digitChar (ftSec q % 60 / 10), digitChar (ftSec q % 60 % 10), ',',
       digitChar (ftMs q / 100), digitChar (ftMs q / 10 % 10), digitChar (ftMs q % 10)] :=
  rfl

theorem formatTime_no_newline (q : ℚ) :
    ∀ ch ∈ (formatTime q).data, ch ≠ '\n' := by
  rw [formatTime_data]
  intro ch hch
  simp only [List.mem_cons, List.not_mem_nil, or_false] at hch
  rcases hch with h | h | h | h | h | h | h | h | h | h | h | h <;> subst h <;>
    first
      | exact digitChar_ne_newline _
      | decide

theorem msExact_rep (q : ℚ) (h : msExact q) :
    ∃ n : Nat, q = (n : ℚ) / 1000 := by
  obtain ⟨hq, hden⟩ := h
  have hnum : (((q * 1000).num : ℤ) : ℚ) = q * 1000 :=
    Rat.coe_int_num_of_den_eq_one hden
  have hnn : (0 : ℤ) ≤ (q * 1000).num :=
    Rat.num_nonneg.mpr (mul_nonneg hq (by norm_num))
  refine ⟨(q * 1000).num.toNat, ?_⟩
  have hcast : (((q * 1000).num.toNat : ℕ) : ℚ) = (((q * 1000).num : ℤ) : ℚ) := by
    exact_mod_cast Int.toNat_of_nonneg hnn
  rw [hcast, hnum]
  field_simp

theorem floor_nat_div1000 (n : Nat) :
    ⌊(n : ℚ) / 1000⌋ = ((n / 1000 : ℕ) : ℤ) := by
  have h1 : ((n : ℚ)) = (((n : ℤ)) : ℚ) := by push_cast; ring
  have h2 : ((1000 : ℚ)) = (((1000 : ℕ)) : ℚ) := by norm_num
  rw [h1, h2, Rat.floor_intCast_div_natCast]
  omega

theorem ftSec_div1000 (n : Nat) : ftSec ((n : ℚ) / 1000) = n / 1000 := by
  unfold ftSec
  rw [floor_nat_div1000, Int.toNat_natCast]

theorem ftMs_div1000 (n : Nat) : ftMs ((n : ℚ) / 1000) = n % 1000 := by
  unfold ftMs
  rw [floor_nat_div1000]
  have hfrac : ((n : ℚ) / 1000 - (((n / 1000 : ℕ) : ℤ) : ℚ)) * 1000
      = ((n % 1000 : ℕ) : ℚ) := by
    have hn : 1000 * (n / 1000) + n % 1000 = n := by omega
    have hq : (n : ℚ) = 1000 * ((n / 1000 : ℕ) : ℚ) + ((n % 1000 : ℕ) : ℚ) := by
      calc (n : ℚ) = ((1000 * (n / 1000) + n % 1000 : ℕ) : ℚ) := by rw [hn]
        _ = 1000 * ((n / 1000 : ℕ) : ℚ) + ((n % 1000 : ℕ) : ℚ) := by push_cast; ring
    have hc : (((n / 1000 : ℕ) : ℤ) : ℚ) = ((n / 1000 : ℕ) : ℚ) :=
      Int.cast_natCast _
    rw [hc, hq]
    ring
  rw [hfrac, Int.floor_natCast, Int.toNat_natCast]

theorem parseTimestamp_formatTime (n : Nat) (hn : n < 86400000) :
    parseTimestamp ((formatTime ((n : ℚ) / 1000)).data) = some ((n : ℚ) / 1000) := by
  rw [formatTime_data, ftSec_div1000, ftMs_div1000]
  have e1 := charDigit_digitChar (n / 1000 / 3600 % 24 / 10) (by omega)
  have e2 := charDigit_digitChar (n / 1000 / 3600 % 24 % 10) (by omega)
  have e3 := charDigit_digitChar (n / 1000 / 60 % 60 / 10) (by omega)
  have e4 := charDigit_digitChar (n / 1000 / 60 % 60 % 10) (by omega)
  have e5 := charDigit_digitChar (n / 1000 % 60 / 10) (by omega)
  have e6 := charDigit_digitChar (n / 1000 % 60 % 10) (by omega)
  have e7 := charDigit_digitChar (n % 1000 / 100) (by omega)
  have e8 := charDigit_digitChar (n % 1000 / 10 % 10) (by omega)
  have e9 := charDigit_digitChar (n % 1000 % 10) (by omega)
  simp only [parseTimestamp, e1, e2, e3, e4, e5, e6, e7, e8, e9]
  norm_num
  field_simp
  norm_cast
  omega

theorem string_data_append : ∀ s t : String, (s ++ t).data = s.data ++ t.data :=
  fun ⟨_⟩ ⟨_⟩ => rfl

theorem parseTimeLine_format (na nb : Nat) (ha : na < 86400000)
    (hb : nb < 86400000) :
    parseTimeLine ((formatTime ((na : ℚ) / 1000)).data
        ++ [' ', '-', '-', '>', ' '] ++ (formatTime ((nb : ℚ) / 1000)).data)
      = some ((na : ℚ) / 1000, (nb : ℚ) / 1000) := by
  have hlen : ((formatTime ((na : ℚ) / 1000)).data).length = 12 := by
    rw [formatTime_data]
    rfl
  have hsep : ([' ', '-', '-', '>', ' '] : List Char).length = 5 := rfl
  unfold parseTimeLine
  rw [List.append_assoc, List.drop_left' hlen, List.take_left' hlen,
    List.take_left' hsep, List.drop_left' hsep]
  simp [parseTimestamp_formatTime na ha, parseTimestamp_formatTime nb hb]

theorem splitChar_serializeCue_append (c : Cue) (rest : List Char)
    (hT : '\n' ∉ c.text.data) :
    splitChar '\n' ((serializeCue c).data ++ rest)
      = [(natToString c.index).data, timeLineData c, c.text.data]
        ++ splitChar '\n' rest := by
  have hA : ∀ ch ∈ (natToString c.index).data, ch ≠ '\n' := fun ch h =>
    natToStringAux_no_newline (c.index + 1) c.index ch h
  have hB : ∀ ch ∈ timeLineData c, ch ≠ '\n' := by
    intro ch h
    unfold timeLineData at h
    rw [List.append_assoc, List.mem_append] at h
    rcases h with h | h
    · exact formatTime_no_newline _ ch h
    · rw [List.mem_append] at h
      rcases h with h | h
      · simp only [List.mem_cons, List.not_mem_nil, or_false] at h
        rcases h with h | h | h | h | h <;> subst h <;> decide
      · exact formatTime_no_newline _ ch h
  have hT2 : ∀ ch ∈ c.text.data, ch ≠ '\n' := by
    intro ch h heq
    exact hT (heq ▸ h)
  have hnl : ("\n" : String).data = ['\n'] := rfl
  have harrow : (" --> " : String).data = [' ', '-', '-', '>', ' '] := rfl
  have hdata : (serializeCue c).data ++ rest
      = (natToString c.index).data
        ++ '\n' :: (timeLineData c ++ '\n' :: (c.text.data ++ '\n' :: rest)) := by
    unfold serializeCue timeLineData
    simp only [string_data_append, hnl, harrow, List.append_assoc,
      List.singleton_append, List.cons_append, List.nil_append]
  rw [hdata, splitChar_append_cons, splitChar_append_cons, splitChar_append_cons,
    splitChar_of_not_mem _ _ hA, splitChar_of_not_mem _ _ hB,
    splitChar_of_not_mem _ _ hT2]
  simp

theorem wfCue_ms_bound (q : ℚ) (n : Nat) (hq : q = (n : ℚ) / 1000)
    (hb : q < 86400) : n < 86400000 := by
  have h1 : (n : ℚ) < 86400000 := by
    rw [hq] at hb
    linarith
  exact_mod_cast h1

theorem parseBlocks_cons (c : Cue) (cs' : List Cue) (rest : List (List Char))
    (hwf : wfCue c) (hrest : parseBlocks rest = some cs') :
    parseBlocks ((natToString c.index).data :: timeLineData c
        :: c.text.data :: [] :: rest) = some (c :: cs') := by
  obtain ⟨hmsS, hbS, hmsE, hbE, _hT⟩ := hwf
  obtain ⟨na, hna⟩ := msExact_rep _ hmsS
  obtain ⟨nb, hnb⟩ := msExact_rep _ hmsE
  have hba : na < 86400000 := wfCue_ms_bound _ _ hna hbS
  have hbb : nb < 86400000 := wfCue_ms_bound _ _ hnb hbE
  have htl : parseTimeLine (timeLineData c)
      = some (c.startTime, c.endTime) := by
    unfold timeLineData
    rw [hna, hnb]
    exact parseTimeLine_format na nb hba hbb
  rw [parseBlocks, parseNat_natToString, htl, hrest]
  rfl

theorem parseBlocks_joinSep (cues : List Cue) (hne : cues ≠ [])
    (hwf : ∀ c ∈ cues, wfCue c) :
    parseBlocks (splitChar '\n' (joinSep "\n" (cues.map serializeCue)).data)
      = some cues := by
  induction cues with
  | nil => exact absurd rfl hne
  | cons c cs ih =>
    have hwfc : wfCue c := hwf c (List.mem_cons_self c cs)
    cases cs with
    | nil =>
      have hjoin : joinSep "\n" ([c].map serializeCue) = serializeCue c := rfl
      rw [hjoin, ← List.append_nil (serializeCue c).data,
        splitChar_serializeCue_append c [] hwfc.2.2.2.2]
      have hsplit : splitChar '\n' ([] : List Char) = [[]] := rfl
      rw [hsplit]
      exact parseBlocks_cons c [] [] hwfc rfl
    | cons c2 cs2 =>
      have hjoin : joinSep "\n" ((c :: c2 :: cs2).map serializeCue)
          = serializeCue c ++ "\n" ++ joinSep "\n" ((c2 :: cs2).map serializeCue) := rfl
      rw [hjoin]
      have hdata : (serializeCue c ++ "\n"
            ++ joinSep "\n" ((c2 :: cs2).map serializeCue)).data
          = (serializeCue c).data
            ++ '\n' :: (joinSep "\n" ((c2 :: cs2).map serializeCue)).data := by
        simp only [string_data_append, List.append_assoc]
        rfl
      rw [hdata]
      have hmid : (serializeCue c).data
            ++ '\n' :: (joinSep "\n" ((c2 :: cs2).map serializeCue)).data
          = (serializeCue c).data
            ++ ('\n' :: (joinSep "\n" ((c2 :: cs2).map serializeCue)).data) := rfl
      rw [hmid, splitChar_serializeCue_append c _ hwfc.2.2.2.2]
      have hrest : splitChar '\n'
            ('\n' :: (joinSep "\n" ((c2 :: cs2).map serializeCue)).data)
          = [] :: splitChar '\n' (joinSep "\n" ((c2 :: cs2).map serializeCue)).data := by
        rw [splitChar]
        simp
      rw [hrest]
      have hih := ih (by simp) (fun x hx => hwf x (List.mem_cons_of_mem c hx))
      exact parseBlocks_cons c (c2 :: cs2) _ hwfc hih

/-- C6 counterexample: the claim's exact round-trip fails as soon as a
cue time is not a whole number of milliseconds, because `formatTime`
floors to millisecond precision. For one word and measured duration
`10.0001` s the only cue ends at `9.8501`, is rendered `00:00:09,850`,
and parses back to `9.85 ≠ 9.8501`. -/
theorem srt_roundtrip_counterexample :
    parseSrt (generateSrt "a" (100001 / 10000) 6)
      ≠ some (generateSrtCues "a" (100001 / 10000) 6) := by
  have hl : (chunksOf 6 (splitWords (sanitize "a"))).map (joinSep " ") = ["a"] := rfl
  have hcues : generateSrtCues "a" (100001 / 10000) 6
      = [⟨1, 0, 98501 / 10000, "a"⟩] := by
    simp only [generateSrtCues, hl]
    norm_num [cuesFrom, Cue.mk.injEq, max_def]
  have h9 : (9850 : ℕ) / 1000 = 9 := by norm_num
  have h850 : (9850 : ℕ) % 1000 = 850 := by norm_num
  have hsec : ftSec (98501 / 10000 : ℚ) = ftSec (((9850 : ℕ) : ℚ) / 1000) := by
    rw [ftSec_div1000, h9]
    unfold ftSec
    norm_num
    decide
  have hms : ftMs (98501 / 10000 : ℚ) = ftMs (((9850 : ℕ) : ℚ) / 1000) := by
    rw [ftMs_div1000, h850]
    unfold ftMs
    norm_num
    decide
  have hftE : formatTime (98501 / 10000 : ℚ) = formatTime (((9850 : ℕ) : ℚ) / 1000) := by
    unfold formatTime
    rw [hsec, hms]
  have hft0 : formatTime (0 : ℚ) = formatTime (((0 : ℕ) : ℚ) / 1000) := by
    norm_num
  have hTL : parseTimeLine (timeLineData ⟨1, 0, 98501 / 10000, "a"⟩)
      = some (((0 : ℕ) : ℚ) / 1000, ((9850 : ℕ) : ℚ) / 1000) := by
    show parseTimeLine ((formatTime (0 : ℚ)).data ++ [' ', '-', '-', '>', ' ']
      ++ (formatTime (98501 / 10000 : ℚ)).data) = _
    rw [hftE, hft0]
    exact parseTimeLine_format 0 9850 (by norm_num) (by norm_num)
  have hsplit : splitChar '\n' ((serializeCue ⟨1, 0, 98501 / 10000, "a"⟩).data)
      = [(natToString 1).data, timeLineData ⟨1, 0, 98501 / 10000, "a"⟩,
         ("a" : String).data, []] := by
    rw [← List.append_nil (serializeCue (⟨1, 0, 98501 / 10000, "a"⟩ : Cue)).data,
      splitChar_serializeCue_append _ [] (by decide)]
    rfl
  have hparse : parseSrt (generateSrt "a" (100001 / 10000) 6)
      = some [⟨1, ((0 : ℕ) : ℚ) / 1000, ((9850 : ℕ) : ℚ) / 1000, "a"⟩] := by
    unfold parseSrt generateSrt
    rw [hcues]
    have hjoin : joinSep "\n" ([(⟨1, 0, 98501 / 10000, "a"⟩ : Cue)].map serializeCue)
        = serializeCue ⟨1, 0, 98501 / 10000, "a"⟩ := rfl
    rw [hjoin, hsplit, parseBlocks, parseNat_natToString, hTL]
    rfl
  rw [hparse, hcues]
  intro heq
  simp only [Option.some.injEq, List.cons.injEq, Cue.mk.injEq] at heq
  obtain ⟨⟨_, _, hend, _⟩, _⟩ := heq
  norm_num at hend

/-- C6 amended: parsing the emitted SRT text recovers the builder's cue
sequence exactly, provided every cue is serializable without loss: its
times are whole non-negative numbers of milliseconds below 24 hours
(the precision and range `formatTime` renders faithfully) and its text
contains no newline. Without these conditions the round-trip can fail
(see the counterexample: times are floored to milliseconds). -/
theorem srt_serialization_roundtrip (text : String) (d : ℚ)
    (hwf : ∀ c ∈ generateSrtCues text d 6, wfCue c) :
    parseSrt (generateSrt text d 6) = some (generateSrtCues text d 6) := by
  unfold parseSrt generateSrt
  exact parseBlocks_joinSep _ (generateSrtCues_ne_nil text d) hwf

/-- Witness for the amended C6: the 7-word, 10-second scenario has cue
times 0, 4.85, 5 and 9.85 s — all whole milliseconds — and newline-free
text, and its SRT text parses back to its cue list. -/
theorem srt_serialization_roundtrip_witness :
    parseSrt (generateSrt "a b c d e f g" 10 6)
      = some (generateSrtCues "a b c d e f g" 10 6) := by
  apply srt_serialization_roundtrip
  have hl : (chunksOf 6 (splitWords (sanitize "a b c d e f g"))).map (joinSep " ")
      = ["a b c d e f", "g"] := rfl
  have hcues : generateSrtCues "a b c d e f g" 10 6
      = [⟨1, 0, 97 / 20, "a b c d e f"⟩, ⟨2, 5, 197 / 20, "g"⟩] := by
    simp only [generateSrtCues, hl]
    norm_num [cuesFrom, Cue.mk.injEq, max_def]
  rw [hcues]
  intro c hc
  simp only [List.mem_cons, List.not_mem_nil, or_false] at hc
  rcases hc with h | h <;> subst h <;>
    refine ⟨⟨by norm_num, by norm_num [Rat.den_ofNat]⟩, by norm_num,
      ⟨by norm_num, by norm_num [Rat.den_ofNat]⟩, by norm_num, by decide⟩

end VideoTTS
